import Mathlib

/-!
Verification of the `SimTimer` component of the `simtest` package
(src/timer.go). The timer holds a capacity-one delivery channel, a
`stopped` flag (the fired-or-stopped flag), a deadline, and a back
reference to the registry's event channels. Its three operations are
`Reset`, `Stop` and `fire`; each acquires the timer's mutex, so every
execution is some sequential interleaving of whole calls, which we model
as a list of operations applied in order.
-/

/-!
Go `time.Time` values and `time.Duration` values are modelled as plain
integers (nanoseconds since the epoch): `a.After(b)` is `b < a`,
`a.Equal(b)` is `a = b`, and `a.Add(d)` is `a + d`.
-/

/-- A Go buffered channel of `time.Time` values: its buffer contents in
order, and whether `close` has been called on it. -/
structure Chan where
  buf : List Int
  closed : Bool
deriving Repr, DecidableEq

/-- The capacity of a timer's delivery channel: `make(chan time.Time, 1)`
in `newSimTimer`. -/
def chanCap : Nat := 1

/-- A Go send `ch <- v` on a capacity-one buffered channel. It completes
immediately when the buffer has room; `none` means the send does not
complete (a send to a full buffer blocks, a send to a closed channel
panics). -/
def chanSend (c : Chan) (v : Int) : Option Chan :=
  if c.closed then none
  else if c.buf.length < chanCap then some { c with buf := c.buf ++ [v] }
  else none

/-- The state of a `SimTimer` (src/timer.go lines 22-28). The mutex is not
part of the state: it only serializes whole calls. The `events` back
reference is modelled by `removeSent`, the number of messages this timer
has sent on `events.remove` (the registry notification issued by `Stop`).
The `gossert.Ok` nil-checks of `newSimTimer` concern Go pointers and have
no counterpart here. -/
structure SimTimer where
  ch : Chan
  stopped : Bool
  deadline : Int
  removeSent : Nat
deriving Repr, DecidableEq

/-- `newSimTimer` (src/timer.go lines 31-53): fresh timer with an empty
capacity-one channel, `stopped = false` and the given deadline. -/
def newSimTimer (deadline : Int) : SimTimer :=
  { ch := { buf := [], closed := false }
    stopped := false
    deadline := deadline
    removeSent := 0 }

/-- `SimTimer.Reset` (src/timer.go lines 58-69): if the timer is stopped
return `false`, otherwise add `d` to the deadline and return `true`. -/
def SimTimer.Reset (timer : SimTimer) (d : Int) : SimTimer × Bool :=
  if timer.stopped then (timer, false)
  else ({ timer with deadline := timer.deadline + d }, true)

/-- `SimTimer.Stop` (src/timer.go lines 74-86): if the timer is stopped
return `false`, otherwise send the timer on `events.remove`, mark it
stopped and return `true`. -/
def SimTimer.Stop (timer : SimTimer) : SimTimer × Bool :=
  if timer.stopped then (timer, false)
  else ({ timer with removeSent := timer.removeSent + 1, stopped := true }, true)

/-- `SimTimer.fire` (src/timer.go lines 91-109): if the timer is stopped
return `false`; if `now` is neither after nor equal to the deadline
return `false`; otherwise mark the timer stopped, send `now` on the
delivery channel and return `true`. `none` models the send not
completing (it would block or panic). -/
def SimTimer.fire (timer : SimTimer) (now : Int) : Option (SimTimer × Bool) :=
  if timer.stopped then some (timer, false)
  else if timer.deadline < now ∨ now = timer.deadline then
    match chanSend timer.ch now with
    | some c => some ({ timer with stopped := true, ch := c }, true)
    | none => none
  else some (timer, false)

/-- One call on a timer: `Reset(d)`, `Stop()` or `fire(now)`. -/
inductive TimerOp where
  | reset (d : Int)
  | stop
  | fire (now : Int)
deriving Repr, DecidableEq

/-- Apply one call to a timer, yielding the new state and the returned
boolean (`none` when `fire`'s channel send does not complete). -/
def applyOp (timer : SimTimer) : TimerOp → Option (SimTimer × Bool)
  | .reset d => some (timer.Reset d)
  | .stop => some timer.Stop
  | .fire now => timer.fire now

/-- Run a sequence of calls, recording each call together with the boolean
it returned, and the final state. -/
def run (timer : SimTimer) : List TimerOp → Option (List (TimerOp × Bool) × SimTimer)
  | [] => some ([], timer)
  | op :: ops =>
    match applyOp timer op with
    | none => none
    | some (t2, b) =>
      match run t2 ops with
      | none => none
      | some (tr, tf) => some ((op, b) :: tr, tf)

/-- Some `Stop` call in the trace returned `true`. -/
def stopSucceeded (tr : List (TimerOp × Bool)) : Prop :=
  (TimerOp.stop, true) ∈ tr

/-- Some `fire` call in the trace returned `true` (delivered a value). -/
def fireSucceeded (tr : List (TimerOp × Bool)) : Prop :=
  ∃ a, (TimerOp.fire a, true) ∈ tr

/-- States reachable from `newSimTimer`: the channel is never closed, is
empty until the timer fires, and never holds more than one value. -/
def Reachable (timer : SimTimer) : Prop :=
  timer.ch.closed = false ∧
  (timer.stopped = false → timer.ch.buf = []) ∧
  timer.ch.buf.length ≤ 1

theorem reachable_new (deadline : Int) : Reachable (newSimTimer deadline) := by
  simp [Reachable, newSimTimer]

/-- On a stopped timer every call returns `false` and changes nothing. -/
theorem applyOp_stopped (timer : SimTimer) (op : TimerOp)
    (h : timer.stopped = true) : applyOp timer op = some (timer, false) := by
  cases op <;> simp [applyOp, SimTimer.Reset, SimTimer.Stop, SimTimer.fire, h]

/-- A run from a stopped timer returns `false` at every call and ends in
the same state. -/
theorem run_stopped (timer : SimTimer) (ops : List TimerOp)
    (h : timer.stopped = true) :
    run timer ops = some (ops.map (fun op => (op, false)), timer) := by
  induction ops with
  | nil => simp [run]
  | cons op ops ih => simp [run, applyOp_stopped timer op h, ih]

/-- Every call preserves reachability, never blocks from a reachable
state, and preserves the `stopped` flag once set. -/
theorem applyOp_reachable (timer : SimTimer) (op : TimerOp)
    (h : Reachable timer) :
    ∃ t2 b, applyOp timer op = some (t2, b) ∧ Reachable t2 ∧
      (timer.stopped = true → t2.stopped = true) := by
  obtain ⟨hcl, hemp, hlen⟩ := h
  cases op with
  | reset d =>
    by_cases hs : timer.stopped
    · exact ⟨timer, false, by simp [applyOp, SimTimer.Reset, hs], ⟨hcl, hemp, hlen⟩, fun _ => hs⟩
    · refine ⟨{ timer with deadline := timer.deadline + d }, true, ?_, ?_, ?_⟩
      · simp [applyOp, SimTimer.Reset, hs]
      · exact ⟨hcl, hemp, hlen⟩
      · simp [hs]
  | stop =>
    by_cases hs : timer.stopped
    · exact ⟨timer, false, by simp [applyOp, SimTimer.Stop, hs], ⟨hcl, hemp, hlen⟩, fun _ => hs⟩
    · refine ⟨{ timer with removeSent := timer.removeSent + 1, stopped := true }, true, ?_, ?_, ?_⟩
      · simp [applyOp, SimTimer.Stop, hs]
      · exact ⟨hcl, by simp, hlen⟩
      · simp
  | fire now =>
    by_cases hs : timer.stopped
    · exact ⟨timer, false, by simp [applyOp, SimTimer.fire, hs], ⟨hcl, hemp, hlen⟩, fun _ => hs⟩
    · by_cases hd : timer.deadline < now ∨ now = timer.deadline
      · have hb : timer.ch.buf = [] := hemp (by simpa using hs)
        refine ⟨{ timer with stopped := true, ch := { timer.ch with buf := timer.ch.buf ++ [now] } },
          true, ?_, ?_, ?_⟩
        · simp [applyOp, SimTimer.fire, hs, hd, chanSend, hcl, hb, chanCap]
        · exact ⟨hcl, by simp, by simp [hb]⟩
        · simp
      · exact ⟨timer, false, by simp [applyOp, SimTimer.fire, hs, hd], ⟨hcl, hemp, hlen⟩, fun h => h⟩

/-- A run from a reachable state never blocks and ends in a reachable
state. -/
theorem run_reachable (ops : List TimerOp) (timer : SimTimer)
    (h : Reachable timer) :
    ∃ tr tf, run timer ops = some (tr, tf) ∧ Reachable tf := by
  induction ops generalizing timer with
  | nil => exact ⟨[], timer, by simp [run], h⟩
  | cons op ops ih =>
    obtain ⟨t2, b, happ, h2, _⟩ := applyOp_reachable timer op h
    obtain ⟨tr, tf, hrun, hf⟩ := ih t2 h2
    exact ⟨(op, b) :: tr, tf, by simp [run, happ, hrun], hf⟩


/-- Running a sequence of Resets on an unstopped timer: every call returns
`true` and the deadline shifts by the running sum of the deltas. -/
theorem run_resets (ds : List Int) (timer : SimTimer) (hs : timer.stopped = false) :
    run timer (ds.map TimerOp.reset) =
      some ((ds.map TimerOp.reset).map (fun op => (op, true)),
            { timer with deadline := timer.deadline + ds.sum }) := by
  induction ds generalizing timer with
  | nil => simp [run]
  | cons d ds ih =>
    have step : applyOp timer (TimerOp.reset d) =
        some ({ timer with deadline := timer.deadline + d }, true) := by
      simp [applyOp, SimTimer.Reset, hs]
    have hrun := ih { timer with deadline := timer.deadline + d } hs
    simp [run, step, hrun, add_assoc]

/-- C1: the fired-or-stopped flag goes from false to true at most once: on
a stopped timer every call returns `false` and leaves the state unchanged
(so once the flag is true it stays true and nothing further happens, over
any sequence of calls), and the only calls that set the flag are a `Stop`
or a `fire` that returns `true` — never a `Reset`. -/
theorem timer_fired_or_stopped_once (timer : SimTimer) :
    (∀ op t2 b, applyOp timer op = some (t2, b) → timer.stopped = true →
      t2 = timer ∧ b = false) ∧
    (∀ op t2 b, applyOp timer op = some (t2, b) → timer.stopped = false →
      t2.stopped = true → b = true ∧ (op = TimerOp.stop ∨ ∃ a, op = TimerOp.fire a)) ∧
    (∀ ops, timer.stopped = true →
      run timer ops = some (ops.map fun op => (op, false), timer)) := by
  refine ⟨?_, ?_, fun ops hs => run_stopped timer ops hs⟩
  · intro op t2 b happ hs
    rw [applyOp_stopped timer op hs] at happ
    injection happ with h
    injection h with h1 hb
    exact ⟨h1.symm, hb.symm⟩
  · intro op t2 b happ hs h2
    cases op with
    | reset d =>
      have heq : applyOp timer (TimerOp.reset d) =
          some ({ timer with deadline := timer.deadline + d }, true) := by
        simp [applyOp, SimTimer.Reset, hs]
      rw [heq] at happ
      injection happ with h
      injection h with h1 hb
      rw [← h1] at h2
      simp [hs] at h2
    | stop =>
      have heq : applyOp timer TimerOp.stop =
          some ({ timer with removeSent := timer.removeSent + 1, stopped := true }, true) := by
        simp [applyOp, SimTimer.Stop, hs]
      rw [heq] at happ
      injection happ with h
      injection h with h1 hb
      exact ⟨hb.symm, Or.inl rfl⟩
    | fire now =>
      by_cases hd : timer.deadline < now ∨ now = timer.deadline
      · cases hsend : chanSend timer.ch now with
        | none =>
          have heq : applyOp timer (TimerOp.fire now) = none := by
            simp [applyOp, SimTimer.fire, hs, hd, hsend]
          rw [heq] at happ
          cases happ
        | some c =>
          have heq : applyOp timer (TimerOp.fire now) =
              some ({ timer with stopped := true, ch := c }, true) := by
            simp [applyOp, SimTimer.fire, hs, hd, hsend]
          rw [heq] at happ
          injection happ with h
          injection h with h1 hb
          exact ⟨hb.symm, Or.inr ⟨now, rfl⟩⟩
      · have heq : applyOp timer (TimerOp.fire now) = some (timer, false) := by
          simp [applyOp, SimTimer.fire, hs, hd]
        rw [heq] at happ
        injection happ with h
        injection h with h1 hb
        rw [← h1] at h2
        rw [hs] at h2
        cases h2

theorem timer_fired_or_stopped_once_witness :
    (true : Bool) = true ∧
      (TimerOp.stop = TimerOp.stop ∨ ∃ a, TimerOp.stop = TimerOp.fire a) :=
  (timer_fired_or_stopped_once (newSimTimer 0)).2.1 TimerOp.stop
    ((newSimTimer 0).Stop).1 true rfl rfl rfl

/-- C3: on a timer that is not yet fired or stopped (so its channel is
still empty and open), `fire now` returns `false` and delivers nothing
when `now` is strictly before the deadline, and when `now` is at or past
the deadline it marks the timer stopped, places `now` in the delivery
channel and returns `true`. -/
theorem fire_before_and_after_deadline (timer : SimTimer) (now : Int)
    (hs : timer.stopped = false) (hbuf : timer.ch.buf = []) (hcl : timer.ch.closed = false) :
    (now < timer.deadline → timer.fire now = some (timer, false)) ∧
    (timer.deadline ≤ now →
      timer.fire now =
        some ({ timer with stopped := true, ch := { timer.ch with buf := [now] } }, true)) := by
  constructor
  · intro h
    have hd : ¬(timer.deadline < now ∨ now = timer.deadline) := by omega
    simp [SimTimer.fire, hs, hd]
  · intro h
    have hd : timer.deadline < now ∨ now = timer.deadline := by omega
    simp [SimTimer.fire, hs, hd, chanSend, hcl, hbuf, chanCap]

theorem fire_before_and_after_deadline_witness :
    SimTimer.fire (newSimTimer 5) 3 = some (newSimTimer 5, false) ∧
    SimTimer.fire (newSimTimer 5) 7 =
      some ({ newSimTimer 5 with stopped := true, ch := { (newSimTimer 5).ch with buf := [7] } }, true) :=
  ⟨(fire_before_and_after_deadline (newSimTimer 5) 3 rfl rfl rfl).1 (by decide),
   (fire_before_and_after_deadline (newSimTimer 5) 7 rfl rfl rfl).2 (by decide)⟩

/-- C4: on a timer that is not yet fired or stopped, `Reset d` returns
`true` and sets the deadline to the current deadline plus `d` (relative
to the current deadline, not to the current virtual time), and a sequence
of successive Resets shifts the deadline by the sum of the deltas. -/
theorem reset_relative_to_deadline (timer : SimTimer) (hs : timer.stopped = false) :
    (∀ d : Int, timer.Reset d = ({ timer with deadline := timer.deadline + d }, true)) ∧
    (∀ ds : List Int,
      run timer (ds.map TimerOp.reset) =
        some ((ds.map TimerOp.reset).map (fun op => (op, true)),
              { timer with deadline := timer.deadline + ds.sum })) :=
  ⟨fun d => by simp [SimTimer.Reset, hs], fun ds => run_resets ds timer hs⟩

theorem reset_relative_to_deadline_witness :
    SimTimer.Reset (newSimTimer 10) 2 = ({ newSimTimer 10 with deadline := 12 }, true) ∧
    run (newSimTimer 10) ([2, 3].map TimerOp.reset) =
      some ([(TimerOp.reset 2, true), (TimerOp.reset 3, true)],
            { newSimTimer 10 with deadline := 15 }) :=
  ⟨(reset_relative_to_deadline (newSimTimer 10) rfl).1 2,
   (reset_relative_to_deadline (newSimTimer 10) rfl).2 [2, 3]⟩

/-- C5: `Stop` on an already fired-or-stopped timer returns `false` with
no effect; otherwise it marks the timer stopped, sends one message on the
registry removal channel and returns `true`. In all cases `Stop` leaves
the delivery channel exactly as it was — it never closes or drains it —
so a value delivered by an earlier `fire` is still in the buffer after
`Stop`. -/
theorem stop_spec (timer : SimTimer) :
    (timer.stopped = true → timer.Stop = (timer, false)) ∧
    (timer.stopped = false →
      timer.Stop = ({ timer with removeSent := timer.removeSent + 1, stopped := true }, true)) ∧
    (timer.Stop).1.ch = timer.ch ∧
    (∀ v, v ∈ timer.ch.buf → v ∈ (timer.Stop).1.ch.buf) := by
  by_cases hs : timer.stopped = true
  · refine ⟨fun _ => ?_, fun h => ?_, ?_, fun v hv => ?_⟩
    · simp [SimTimer.Stop, hs]
    · rw [hs] at h; cases h
    · simp [SimTimer.Stop, hs]
    · simpa [SimTimer.Stop, hs] using hv
  · have hs2 : timer.stopped = false := by simpa using hs
    refine ⟨fun h => ?_, fun _ => ?_, ?_, fun v hv => ?_⟩
    · rw [hs2] at h; cases h
    · simp [SimTimer.Stop, hs2]
    · simp [SimTimer.Stop, hs2]
    · simpa [SimTimer.Stop, hs2] using hv

theorem stop_spec_witness :
    SimTimer.Stop (newSimTimer 4) =
      ({ newSimTimer 4 with removeSent := 1, stopped := true }, true) ∧
    SimTimer.Stop ({ newSimTimer 4 with stopped := true }) =
      ({ newSimTimer 4 with stopped := true }, false) :=
  ⟨(stop_spec (newSimTimer 4)).2.1 rfl,
   (stop_spec { newSimTimer 4 with stopped := true }).1 rfl⟩

/-- C6: whenever `fire now` delivers, the value it places in the delivery
channel is `now` itself, which is at or after the deadline the timer had
at that moment, and the delivered value equals that deadline exactly when
`fire` was called with `now` exactly equal to the deadline. -/
theorem delivered_value_at_or_after_deadline (timer : SimTimer) (now : Int)
    (t2 : SimTimer) (h : timer.fire now = some (t2, true)) :
    timer.deadline ≤ now ∧ t2.ch.buf = timer.ch.buf ++ [now] ∧
    (t2.ch.buf = timer.ch.buf ++ [timer.deadline] ↔ now = timer.deadline) := by
  by_cases hs : timer.stopped = true
  · rw [show timer.fire now = some (timer, false) from by simp [SimTimer.fire, hs]] at h
    injection h with h
    injection h with h1 hb
    cases hb
  · have hs2 : timer.stopped = false := by simpa using hs
    by_cases hd : timer.deadline < now ∨ now = timer.deadline
    · cases hsend : chanSend timer.ch now with
      | none =>
        rw [show timer.fire now = none from by simp [SimTimer.fire, hs2, hd, hsend]] at h
        cases h
      | some c =>
        have hc : c.buf = timer.ch.buf ++ [now] := by
          by_cases hcl : timer.ch.closed = true
          · simp [chanSend, hcl] at hsend
          · have hcl2 : timer.ch.closed = false := by simpa using hcl
            by_cases hlen : timer.ch.buf.length < chanCap
            · simp only [chanSend, hcl2, Bool.false_eq_true, if_false, if_pos hlen,
                Option.some.injEq] at hsend
              rw [← hsend]
            · simp [chanSend, hcl2, hlen] at hsend
        rw [show timer.fire now = some ({ timer with stopped := true, ch := c }, true) from by
          simp [SimTimer.fire, hs2, hd, hsend]] at h
        injection h with h
        injection h with h1 hb
        have ht2 : t2.ch.buf = timer.ch.buf ++ [now] := by rw [← h1]; exact hc
        refine ⟨by omega, ht2, ?_⟩
        rw [ht2]
        constructor
        · intro he
          have := List.append_cancel_left he
          simpa using this
        · intro he
          rw [he]
    · rw [show timer.fire now = some (timer, false) from by simp [SimTimer.fire, hs2, hd]] at h
      injection h with h
      injection h with h1 hb
      cases hb

theorem delivered_value_at_or_after_deadline_witness :
    (5 : Int) ≤ 7 ∧
      ({ newSimTimer 5 with stopped := true, ch := { buf := [7], closed := false } } : SimTimer).ch.buf =
        (newSimTimer 5).ch.buf ++ [7] ∧
      (({ newSimTimer 5 with stopped := true, ch := { buf := [7], closed := false } } : SimTimer).ch.buf =
          (newSimTimer 5).ch.buf ++ [(newSimTimer 5).deadline] ↔ (7 : Int) = (newSimTimer 5).deadline) :=
  delivered_value_at_or_after_deadline (newSimTimer 5) 7
    { newSimTimer 5 with stopped := true, ch := { buf := [7], closed := false } } rfl

/-- C8: once the fired-or-stopped flag is true, no call changes the
deadline: any call on a stopped timer leaves the deadline (indeed the
whole state) as it was. -/
theorem deadline_frozen_once_stopped (timer : SimTimer) (op : TimerOp)
    (t2 : SimTimer) (b : Bool) (hs : timer.stopped = true)
    (happ : applyOp timer op = some (t2, b)) : t2.deadline = timer.deadline := by
  rw [applyOp_stopped timer op hs] at happ
  injection happ with h
  injection h with h1 hb
  rw [← h1]

theorem deadline_frozen_once_stopped_witness :
    ({ newSimTimer 9 with stopped := true } : SimTimer).deadline =
      ({ newSimTimer 9 with stopped := true } : SimTimer).deadline :=
  deadline_frozen_once_stopped { newSimTimer 9 with stopped := true } (TimerOp.reset 3)
    { newSimTimer 9 with stopped := true } false rfl rfl

/-- C9: on a timer that is not yet fired or stopped, `Reset d` accepts any
delta unvalidated — zero and negative included — returning `true` and
adding `d` to the deadline, so a negative delta moves the deadline
strictly earlier. -/
theorem reset_accepts_any_delta (timer : SimTimer) (d : Int) (hs : timer.stopped = false) :
    (timer.Reset d).2 = true ∧
    (timer.Reset d).1.deadline = timer.deadline + d ∧
    (d < 0 → (timer.Reset d).1.deadline < timer.deadline) ∧
    (d = 0 → (timer.Reset d).1.deadline = timer.deadline) := by
  refine ⟨by simp [SimTimer.Reset, hs], by simp [SimTimer.Reset, hs], ?_, ?_⟩
  · intro hneg
    simp only [SimTimer.Reset, hs, Bool.false_eq_true, if_false]
    omega
  · intro hz
    simp [SimTimer.Reset, hs, hz]

theorem reset_accepts_any_delta_witness :
    (SimTimer.Reset (newSimTimer 10) (-5)).2 = true ∧
    (SimTimer.Reset (newSimTimer 10) (-5)).1.deadline = (newSimTimer 10).deadline + (-5) ∧
    ((-5 : Int) < 0 → (SimTimer.Reset (newSimTimer 10) (-5)).1.deadline < (newSimTimer 10).deadline) ∧
    ((-5 : Int) = 0 → (SimTimer.Reset (newSimTimer 10) (-5)).1.deadline = (newSimTimer 10).deadline) :=
  reset_accepts_any_delta (newSimTimer 10) (-5) rfl

/-- C10: whenever `fire now` returns `false` — the timer was already
fired-or-stopped, or `now` is before the deadline — the whole timer state
(flag, deadline and delivery channel alike) is exactly as before the
call. -/
theorem fire_false_leaves_state_unchanged (timer : SimTimer) (now : Int)
    (t2 : SimTimer) (h : timer.fire now = some (t2, false)) : t2 = timer := by
  by_cases hs : timer.stopped = true
  · rw [show timer.fire now = some (timer, false) from by simp [SimTimer.fire, hs]] at h
    injection h with h
    injection h with h1 hb
    exact h1.symm
  · have hs2 : timer.stopped = false := by simpa using hs
    by_cases hd : timer.deadline < now ∨ now = timer.deadline
    · cases hsend : chanSend timer.ch now with
      | none =>
        rw [show timer.fire now = none from by simp [SimTimer.fire, hs2, hd, hsend]] at h
        cases h
      | some c =>
        rw [show timer.fire now = some ({ timer with stopped := true, ch := c }, true) from by
          simp [SimTimer.fire, hs2, hd, hsend]] at h
        injection h with h
        injection h with h1 hb
        cases hb
    · rw [show timer.fire now = some (timer, false) from by simp [SimTimer.fire, hs2, hd]] at h
      injection h with h
      injection h with h1 hb
      exact h1.symm

theorem fire_false_leaves_state_unchanged_witness :
    (newSimTimer 5 : SimTimer) = newSimTimer 5 :=
  fire_false_leaves_state_unchanged (newSimTimer 5) 3 (newSimTimer 5) rfl

/-- C7: starting from a fresh timer, any sequence of calls completes (the
channel send inside `fire` never finds the slot full and never blocks, so
no call gets stuck) and the delivery channel ends up holding at most one
value, the slot's capacity. -/
theorem delivery_slot_receives_at_most_one (deadline : Int) (ops : List TimerOp) :
    ∃ tr tf, run (newSimTimer deadline) ops = some (tr, tf) ∧
      tf.ch.buf.length ≤ 1 ∧ tf.ch.closed = false := by
  obtain ⟨tr, tf, hrun, hR⟩ := run_reachable ops (newSimTimer deadline) (reachable_new deadline)
  exact ⟨tr, tf, hrun, hR.2.2, hR.1⟩

/-- Resolution of a Stop/fire interleaving on a fresh unstopped timer:
either nothing succeeded (and then no Stop was issued and no fire was
due), or exactly one of Stop and fire succeeded, with the channel empty
after a winning Stop and holding exactly one value after a winning
fire. -/
theorem run_race (ops : List TimerOp) (timer : SimTimer)
    (hs : timer.stopped = false) (hbuf : timer.ch.buf = []) (hcl : timer.ch.closed = false) :
    (∀ op ∈ ops, op = TimerOp.stop ∨ ∃ a, op = TimerOp.fire a) →
    ∃ tr tf, run timer ops = some (tr, tf) ∧
      ((¬ stopSucceeded tr ∧ ¬ fireSucceeded tr ∧ tf = timer ∧ TimerOp.stop ∉ ops ∧
          (∀ a, TimerOp.fire a ∈ ops → ¬(timer.deadline < a ∨ a = timer.deadline))) ∨
       (stopSucceeded tr ∧ ¬ fireSucceeded tr ∧ tf.ch.buf = []) ∨
       (fireSucceeded tr ∧ ¬ stopSucceeded tr ∧ ∃ a, tf.ch.buf = [a])) := by
  induction ops generalizing timer with
  | nil =>
    intro _
    refine ⟨[], timer, by simp [run], Or.inl ⟨?_, ?_, rfl, by simp, by simp⟩⟩
    · simp [stopSucceeded]
    · simp [fireSucceeded]
  | cons op ops ih =>
    intro honly
    rcases honly op (by simp) with hop | ⟨a, hop⟩
    · subst hop
      have happ : applyOp timer TimerOp.stop =
          some ({ timer with removeSent := timer.removeSent + 1, stopped := true }, true) := by
        simp [applyOp, SimTimer.Stop, hs]
      have hrest := run_stopped
        ({ timer with removeSent := timer.removeSent + 1, stopped := true } : SimTimer) ops rfl
      refine ⟨(TimerOp.stop, true) :: ops.map (fun op => (op, false)),
        { timer with removeSent := timer.removeSent + 1, stopped := true },
        by simp [run, happ, hrest], Or.inr (Or.inl ⟨?_, ?_, ?_⟩)⟩
      · exact List.mem_cons_self _ _
      · simp [fireSucceeded]
      · simpa using hbuf
    · subst hop
      by_cases hd : timer.deadline < a ∨ a = timer.deadline
      · have happ : applyOp timer (TimerOp.fire a) =
            some ({ timer with stopped := true, ch := { buf := [a], closed := false } }, true) := by
          simp [applyOp, SimTimer.fire, hs, hd, chanSend, hcl, hbuf, chanCap]
        have hrest := run_stopped
          ({ timer with stopped := true, ch := { buf := [a], closed := false } } : SimTimer) ops rfl
        refine ⟨(TimerOp.fire a, true) :: ops.map (fun op => (op, false)),
          { timer with stopped := true, ch := { buf := [a], closed := false } },
          by simp [run, happ, hrest], Or.inr (Or.inr ⟨⟨a, List.mem_cons_self _ _⟩, ?_, ⟨a, rfl⟩⟩)⟩
        · simp [stopSucceeded]
      · have happ : applyOp timer (TimerOp.fire a) = some (timer, false) := by
          simp [applyOp, SimTimer.fire, hs, hd]
        obtain ⟨tr, tf, hrun, hcase⟩ :=
          ih timer hs hbuf hcl (fun op hop => honly op (List.mem_cons_of_mem _ hop))
        refine ⟨(TimerOp.fire a, false) :: tr, tf, by simp [run, happ, hrun], ?_⟩
        rcases hcase with ⟨h1, h2, h3, h4, h5⟩ | ⟨h1, h2, h3⟩ | ⟨h1, h2, h3⟩
        · refine Or.inl ⟨?_, ?_, h3, ?_, ?_⟩
          · intro hmem
            rcases List.mem_cons.mp hmem with he | hm
            · simp at he
            · exact h1 hm
          · rintro ⟨a0, hmem⟩
            rcases List.mem_cons.mp hmem with he | hm
            · simp at he
            · exact h2 ⟨a0, hm⟩
          · intro hmem
            rcases List.mem_cons.mp hmem with he | hm
            · simp at he
            · exact h4 hm
          · intro a0 hmem
            rcases List.mem_cons.mp hmem with he | hm
            · injection he with ha
              subst ha
              exact hd
            · exact h5 a0 hm
        · refine Or.inr (Or.inl ⟨List.mem_cons_of_mem _ h1, ?_, h3⟩)
          rintro ⟨a0, hmem⟩
          rcases List.mem_cons.mp hmem with he | hm
          · simp at he
          · exact h2 ⟨a0, hm⟩
        · obtain ⟨a1, hm1⟩ := h1
          refine Or.inr (Or.inr ⟨⟨a1, List.mem_cons_of_mem _ hm1⟩, ?_, h3⟩)
          intro hmem
          rcases List.mem_cons.mp hmem with he | hm
          · simp at he
          · exact h2 hm

/-- C2: in any interleaving of Stop and fire calls on a fresh timer in
which the race actually arises (a Stop is issued, or a fire at or past
the deadline is issued), exactly one of the two outcomes occurs: either
some Stop call returns true and no fire call ever delivers a value (the
channel stays empty), or some fire call delivers a value and every Stop
call returns false — never both. -/
theorem stop_fire_race_exclusive (dl : Int) (ops : List TimerOp)
    (tr : List (TimerOp × Bool)) (tf : SimTimer)
    (honly : ∀ op ∈ ops, op = TimerOp.stop ∨ ∃ a, op = TimerOp.fire a)
    (hrace : TimerOp.stop ∈ ops ∨ ∃ a, TimerOp.fire a ∈ ops ∧ dl ≤ a)
    (hrun : run (newSimTimer dl) ops = some (tr, tf)) :
    ((stopSucceeded tr ∧ ¬ fireSucceeded tr ∧ tf.ch.buf = []) ∨
     (fireSucceeded tr ∧ ¬ stopSucceeded tr ∧ ∃ a, tf.ch.buf = [a])) ∧
    ¬ (stopSucceeded tr ∧ fireSucceeded tr) := by
  obtain ⟨tr2, tf2, hrun2, hcase⟩ := run_race ops (newSimTimer dl) rfl rfl rfl honly
  rw [hrun] at hrun2
  injection hrun2 with h
  injection h with h1 h2eq
  subst h1
  subst h2eq
  rcases hcase with ⟨_, _, _, h4, h5⟩ | ⟨h1, h2, h3⟩ | ⟨h1, h2, h3⟩
  · rcases hrace with hstop | ⟨a, ha, hle⟩
    · exact absurd hstop h4
    · have hnd := h5 a ha
      simp [newSimTimer] at hnd
      omega
  · exact ⟨Or.inl ⟨h1, h2, h3⟩, fun hc => h2 hc.2⟩
  · exact ⟨Or.inr ⟨h1, h2, h3⟩, fun hc => h2 hc.1⟩

theorem stop_fire_race_exclusive_witness :
    ((stopSucceeded [(TimerOp.stop, true), (TimerOp.fire 0, false)] ∧
        ¬ fireSucceeded [(TimerOp.stop, true), (TimerOp.fire 0, false)] ∧
        (⟨⟨[], false⟩, true, 0, 1⟩ : SimTimer).ch.buf = []) ∨
     (fireSucceeded [(TimerOp.stop, true), (TimerOp.fire 0, false)] ∧
        ¬ stopSucceeded [(TimerOp.stop, true), (TimerOp.fire 0, false)] ∧
        ∃ a, (⟨⟨[], false⟩, true, 0, 1⟩ : SimTimer).ch.buf = [a])) ∧
    ¬ (stopSucceeded [(TimerOp.stop, true), (TimerOp.fire 0, false)] ∧
       fireSucceeded [(TimerOp.stop, true), (TimerOp.fire 0, false)]) :=
  stop_fire_race_exclusive 0 [TimerOp.stop, TimerOp.fire 0]
    [(TimerOp.stop, true), (TimerOp.fire 0, false)] ⟨⟨[], false⟩, true, 0, 1⟩
    (by simp) (Or.inl (by simp)) rfl
